import Mathlib

/-!
# Hyprkeys: the output layer of `main.go`

A shallow embedding of `outputData`, `filterBinds`, `markdownHandler`,
`jsonHandler`, `rawHandler` and `keybindsToMarkdown` from `main.go`, with the
properties of the filter and of the Markdown and raw renderers.

Go strings are byte sequences, and every string operation used by `main.go`
(`+`, `strings.Contains`, `strings.ReplaceAll`, the `%s` verb of `fmt`) works
on bytes, so a string is embedded as the list of its byte values.
-/

namespace Hyprkeys

/-- A Go `string`: the sequence of its bytes, each byte as its value. -/
abbrev GoString := List Nat

/-- The bytes of a string literal of `main.go`. Every literal there is ASCII,
where the code point of a character is its single byte. -/
def bytes (s : String) : GoString := s.toList.map Char.toNat

/-- The byte `|` (0x7C). -/
def pipeByte : Nat := 124

/-- The byte `\` (0x5C). -/
def backslashByte : Nat := 92

/-- The byte of the line feed (0x0A). -/
def newlineByte : Nat := 10

/-! ## The `strings` functions used by `main.go` -/

/-- Go `strings.HasPrefix(s, sub)`: `s` begins with the bytes of `sub`. -/
def stringsHasPrefix : GoString → GoString → Bool
  | _, [] => true
  | [], _ :: _ => false
  | c :: cs, d :: ds => c == d && stringsHasPrefix cs ds

/-- Go `strings.Contains(s, substr)`: `substr` occurs in `s` at some byte
offset (the empty `substr` occurs in every string). -/
def stringsContains : GoString → GoString → Bool
  | [], substr => stringsHasPrefix [] substr
  | c :: cs, substr => stringsHasPrefix (c :: cs) substr || stringsContains cs substr

/-- The scan of `strings.ReplaceAll` for a non-empty `old`: walking `s` from
the left, with `skip` bytes of an occurrence already replaced still to pass
over; at every other offset where `old` occurs, `new` is emitted and the
bytes of the occurrence are passed over, so that occurrences do not overlap. -/
def replaceScan (old new : GoString) : Nat → GoString → GoString
  | _, [] => []
  | skip + 1, _ :: cs => replaceScan old new skip cs
  | 0, c :: cs =>
    if stringsHasPrefix (c :: cs) old then
      new ++ replaceScan old new (old.length - 1) cs
    else
      c :: replaceScan old new 0 cs

/-- Go `strings.ReplaceAll(s, old, new)` for a non-empty `old` (the only use
in `main.go` has `old = "|"`): every non-overlapping occurrence of `old` in
`s`, found from the left, is replaced by `new`. -/
def stringsReplaceAll (s old new : GoString) : GoString :=
  replaceScan old new 0 s

/-! ## The parsed model (package `reader`) and the flags (package `flags`) -/

/-- Modelled from the spec: the type `reader.Keyword` (its declaration is not
in `main.go`), a `$name = value` declaration, `{Name: string, Value: string}`. -/
structure Keyword where
  Name : GoString
  Value : GoString
deriving DecidableEq, Repr

/-- Modelled from the spec: the type `reader.Keybind` (its declaration is not
in `main.go`), `{BindType, Bind, Dispatcher, Command, Comments: string}`. -/
structure Keybind where
  BindType : GoString
  Bind : GoString
  Dispatcher : GoString
  Command : GoString
  Comments : GoString
deriving DecidableEq, Repr

/-- Modelled from the spec: the element type of `ConfigValues.AutoStart` (its
declaration is not in `main.go`), `{ExecType: string, Command: string}`. -/
structure AutoStartEntry where
  ExecType : GoString
  Command : GoString
deriving DecidableEq, Repr

/-- Modelled from the spec: the element type of `ConfigValues.Settings` (its
declaration is not in `main.go`), one `name { ... }` block:
`{Name: string, Settings: mapping[string→string], SubCategories: ordered
sequence of Category}`. The mapping is held as its list of entries; the order
in which Go ranges over it is not a property of the mapping (see `Env`). -/
inductive Category where
  | mk (Name : GoString) (Settings : List (GoString × GoString))
      (SubCategories : List Category)

/-- The field `Name` of a category. -/
def Category.Name : Category → GoString
  | .mk n _ _ => n

/-- The field `Settings` of a category. -/
def Category.Settings : Category → List (GoString × GoString)
  | .mk _ s _ => s

/-- The field `SubCategories` of a category. -/
def Category.SubCategories : Category → List Category
  | .mk _ _ c => c

/-- Modelled from the spec: the type `reader.ConfigValues` (its declaration is
not in `main.go`), the root aggregate with its four ordered sequences. The Go
slices hold pointers; the records they point to are never written by
`main.go`, so a slice is embedded as the list of the records. -/
structure ConfigValues where
  Keywords : List Keyword
  Binds : List Keybind
  Settings : List Category
  AutoStart : List AutoStartEntry

/-- Modelled from the spec: the type `flags.Flags` (its declaration is not in
`main.go`), with the fields that `main.go` reads. -/
structure Flags where
  Version : Bool
  Help : Bool
  ConfigPath : GoString
  Markdown : Bool
  Raw : Bool
  Json : Bool
  Variables : Bool
  AutoStart : Bool
  Output : GoString
  FilterBinds : GoString
deriving DecidableEq, Repr

/-! ## Errors, the environment and the observable effects -/

/-- A Go `error`, identified with the text of its `Error()` method. -/
structure GoError where
  msg : GoString
deriving DecidableEq, Repr

/-- What `main.go` receives from outside the program text: the outcome of
`os.WriteFile` for a path and contents (`none` is the nil error), the order in
which a `range` over a settings map visits its entries, and the text that
`json.MarshalIndent` produces for a model (it depends on the field tags of
package `reader`). -/
structure Env where
  writeFile : GoString → GoString → Option GoError
  rangeMap : List (GoString × GoString) → List (GoString × GoString)
  jsonText : ConfigValues → GoString

/-- The effects of the program that can be observed: the bytes written to the
standard output and the calls of `os.WriteFile` made, oldest first, each with
its path and contents. -/
structure World where
  stdout : GoString
  writes : List (GoString × GoString)
deriving DecidableEq, Repr

/-- Go `fmt.Print(s)` for a string `s`: the bytes of `s` go to the standard
output. -/
def fmtPrint (s : GoString) (w : World) : World :=
  { w with stdout := w.stdout ++ s }

/-- Go `fmt.Println(s)` for a string `s`: the bytes of `s` and a line feed go to
the standard output. -/
def fmtPrintln (s : GoString) (w : World) : World :=
  { w with stdout := w.stdout ++ s ++ bytes "\n" }

/-- Go `os.WriteFile(path, data, 0o644)`: the call is recorded and its error
is the one the environment gives. -/
def osWriteFile (env : Env) (path data : GoString) (w : World) : World × Option GoError :=
  ({ w with writes := w.writes ++ [(path, data)] }, env.writeFile path data)

/-- Go `json.MarshalIndent(configValues, "", " ")`. The encoder returns an
error only for a value it cannot encode: a channel, function or complex
value, a floating-point NaN or infinity, a cyclic value, or a value whose own
`MarshalJSON` fails. A model is a finite tree of records, string-keyed maps,
slices and strings, so the call returns its text and the nil error. -/
def jsonMarshalIndent (env : Env) (cv : ConfigValues) : Except GoError GoString :=
  .ok (env.jsonText cv)

/-! ## The functions of `main.go` -/

/-- The function `filterBinds` of `main.go` (lines 64-72): starting from the
empty slice, each bind of `configValues.Binds` in turn is appended when its
`Dispatcher` or its `Command` contains `flags.FilterBinds`. -/
def filterBinds (configValues : ConfigValues) (flags : Flags) : List Keybind :=
  configValues.Binds.foldl
    (fun matchedBinds val =>
      if stringsContains val.Dispatcher flags.FilterBinds
          || stringsContains val.Command flags.FilterBinds then
        matchedBinds ++ [val]
      else
        matchedBinds)
    []

/-- The row that `keybindsToMarkdown` appends for one bind (line 162). -/
def markdownRow (keybind : Keybind) : GoString :=
  bytes "| <kbd>" ++ keybind.Bind ++ bytes "</kbd> | " ++ keybind.Dispatcher ++ bytes " | "
    ++ stringsReplaceAll keybind.Command (bytes "|") (bytes "\\|") ++ bytes " | "
    ++ stringsReplaceAll keybind.Comments (bytes "|") (bytes "\\|") ++ bytes " |"

/-- The function `keybindsToMarkdown` of `main.go` (lines 159-165): starting
from the nil slice, one row is appended for each bind in turn. -/
def keybindsToMarkdown (binds : List Keybind) : List GoString :=
  binds.foldl (fun markdown keybind => markdown ++ [markdownRow keybind]) []

/-- The value of `out` that `markdownHandler` has built when it prints it
(lines 75-85). -/
def markdownOut (configValues : ConfigValues) : GoString :=
  let md := keybindsToMarkdown configValues.Binds
  let out : GoString := bytes ""
  let out := configValues.Keywords.foldl
    (fun out val => out ++ (bytes "#### $" ++ val.Name ++ bytes " = " ++ val.Value)) out
  let out := out ++ bytes "\n"
  let out := out ++ bytes "| Keybind | Dispatcher | Command | Comments |\n"
  let out := out ++ bytes "|---------|------------|---------|----------|\n"
  md.foldl (fun out row => out ++ (row ++ bytes "\n")) out

/-- The function `markdownHandler` of `main.go` (lines 74-94): the text is
printed with `fmt.Println` and, when `flags.Output` is not empty, written to
that file, whose error is returned. -/
def markdownHandler (env : Env) (configValues : ConfigValues) (flags : Flags) (w : World) :
    World × Option GoError :=
  let out := markdownOut configValues
  let w := fmtPrintln out w
  if flags.Output ≠ bytes "" then
    let r := osWriteFile env flags.Output out w
    match r.2 with
    | some err => (r.1, some err)
    | none => (r.1, none)
  else
    (w, none)

/-- The function `jsonHandler` of `main.go` (lines 96-113). -/
def jsonHandler (env : Env) (configValues : ConfigValues) (flags : Flags) (w : World) :
    World × Option GoError :=
  match jsonMarshalIndent env configValues with
  | .error err => (w, some err)
  | .ok out =>
    let w := fmtPrintln out w
    if flags.Output ≠ bytes "" then
      let r := osWriteFile env flags.Output out w
      match r.2 with
      | some err => (r.1, some err)
      | none => (r.1, none)
    else
      (w, none)

/-- The lines that `rawHandler` adds for one settings map (lines 120-122 and
125-127): for each entry, in the order of the `range`, the indentation, the
key, ` = `, the value and a line feed. -/
def rawSettings (env : Env) (indent : GoString) (settings : List (GoString × GoString))
    (out : GoString) : GoString :=
  (env.rangeMap settings).foldl
    (fun out kv => out ++ (indent ++ kv.1 ++ bytes " = " ++ kv.2 ++ bytes "\n")) out

/-- The value of `out` that `rawHandler` has built when it prints it (lines
116-147). -/
def rawOut (env : Env) (configValues : ConfigValues) (flags : Flags) : GoString :=
  let out : GoString := bytes ""
  let out :=
    if flags.Variables then
      configValues.Settings.foldl
        (fun out val =>
          let out := out ++ (val.Name ++ bytes " \x7b" ++ bytes "\n")
          let out := rawSettings env (bytes "\t") val.Settings out
          let out := val.SubCategories.foldl
            (fun out set =>
              let out := out ++ (bytes "\t" ++ set.Name ++ bytes " \x7b\n")
              let out := rawSettings env (bytes "\t\t") set.Settings out
              out ++ bytes "\t\x7d\n")
            out
          out ++ bytes "\x7d\n")
        out
    else out
  let out :=
    if flags.AutoStart then
      configValues.AutoStart.foldl
        (fun out val => out ++ (val.ExecType ++ bytes "=" ++ val.Command ++ bytes "\n")) out
    else out
  let out := configValues.Binds.foldl
    (fun out bind =>
      let out := out ++ (bind.BindType ++ bytes " = " ++ bind.Bind ++ bytes " "
        ++ bind.Dispatcher ++ bytes " " ++ bind.Command)
      let out := if bind.Comments ≠ bytes "" then out ++ (bytes "#" ++ bind.Comments) else out
      out ++ bytes "\n")
    out
  configValues.Keywords.foldl
    (fun out key => out ++ (bytes "$" ++ key.Name ++ bytes " = " ++ key.Value ++ bytes "\n")) out

/-- The function `rawHandler` of `main.go` (lines 115-156): the text is printed
with `fmt.Print` and, when `flags.Output` is not empty, written to that file,
whose error is returned. -/
def rawHandler (env : Env) (configValues : ConfigValues) (flags : Flags) (w : World) :
    World × Option GoError :=
  let out := rawOut env configValues flags
  let w := fmtPrint out w
  if flags.Output ≠ bytes "" then
    let r := osWriteFile env flags.Output out w
    match r.2 with
    | some err => (r.1, some err)
    | none => (r.1, none)
  else
    (w, none)

/-- The function `outputData` of `main.go` (lines 50-62). The model is passed
by pointer and its field `Binds` is overwritten, so the model after the call
is returned with the effects and the error. -/
def outputData (env : Env) (configValues : ConfigValues) (flags : Flags) (w : World) :
    ConfigValues × World × Option GoError :=
  let configValues := { configValues with Binds := filterBinds configValues flags }
  if flags.Markdown then
    let r := markdownHandler env configValues flags w
    (configValues, r.1, r.2)
  else if flags.Raw then
    let r := rawHandler env configValues flags w
    (configValues, r.1, r.2)
  else if flags.Json then
    let r := jsonHandler env configValues flags w
    (configValues, r.1, r.2)
  else
    (configValues, w, some ⟨bytes "No output flag selected"⟩)

/-! ## Specification-side notions -/

/-- The substring relation of the specification: `sub` occurs in `s` when `s`
is some bytes, then `sub`, then some bytes. -/
def IsSubstring (sub s : GoString) : Prop :=
  ∃ pre post : GoString, s = pre ++ sub ++ post

/-- The test of `filterBinds` on one bind (line 67). -/
def bindMatches (filter : GoString) (val : Keybind) : Bool :=
  stringsContains val.Dispatcher filter || stringsContains val.Command filter

/-- The escaping of the specification: every `|` is replaced by a backslash
followed by `|`, every other byte is kept. -/
def escapePipes (s : GoString) : GoString :=
  s.flatMap (fun c => if c = pipeByte then [backslashByte, pipeByte] else [c])

/-- The Markdown row of the specification for one bind:
`| <kbd>Bind</kbd> | Dispatcher | esc(Command) | esc(Comments) |`. -/
def specMarkdownRow (b : Keybind) : GoString :=
  bytes "| <kbd>" ++ b.Bind ++ bytes "</kbd> | " ++ b.Dispatcher ++ bytes " | "
    ++ escapePipes b.Command ++ bytes " | " ++ escapePipes b.Comments ++ bytes " |"

/-- The heading of the specification for one keyword: `#### $Name = Value`,
with no line feed after it. -/
def specKeywordHeading (k : Keyword) : GoString :=
  bytes "#### $" ++ k.Name ++ bytes " = " ++ k.Value

/-- The Markdown text of the specification: the keyword headings one after
the other, a line feed, the two lines of the table head, and the rows, each
followed by a line feed. -/
def specMarkdownText (cv : ConfigValues) : GoString :=
  (cv.Keywords.map specKeywordHeading).flatten ++ bytes "\n"
    ++ (bytes "| Keybind | Dispatcher | Command | Comments |" ++ bytes "\n")
    ++ (bytes "|---------|------------|---------|----------|" ++ bytes "\n")
    ++ ((keybindsToMarkdown cv.Binds).map (fun row => row ++ bytes "\n")).flatten

/-- No rendered field of the model holds a line feed: the `Name` and `Value`
of every keyword and the `Bind`, `Dispatcher`, `Command` and `Comments` of
every bind. -/
abbrev NoNewlineInFields (cv : ConfigValues) : Prop :=
  (∀ k ∈ cv.Keywords, newlineByte ∉ k.Name ∧ newlineByte ∉ k.Value) ∧
    (∀ b ∈ cv.Binds, newlineByte ∉ b.Bind ∧ newlineByte ∉ b.Dispatcher ∧
      newlineByte ∉ b.Command ∧ newlineByte ∉ b.Comments)

/-- The byte `#` (0x23). -/
def hashByte : Nat := 35

/-- The raw line of the specification for one autostart entry:
`ExecType=Command` and a line feed. -/
def specExecLine (e : AutoStartEntry) : GoString :=
  e.ExecType ++ bytes "=" ++ e.Command ++ bytes "\n"

/-- The raw line of the specification for one bind:
`BindType = Bind Dispatcher Command`, then `#` and `Comments` exactly when
`Comments` is not empty, then a line feed. -/
def specBindLine (b : Keybind) : GoString :=
  b.BindType ++ bytes " = " ++ b.Bind ++ bytes " " ++ b.Dispatcher ++ bytes " " ++ b.Command
    ++ (if b.Comments = [] then [] else bytes "#" ++ b.Comments) ++ bytes "\n"

/-- The raw line of the specification for one keyword: `$Name = Value` and a
line feed. -/
def specKeywordLine (k : Keyword) : GoString :=
  bytes "$" ++ k.Name ++ bytes " = " ++ k.Value ++ bytes "\n"

/-- The raw text of the specification when the settings are not asked for:
the autostart lines (only with the flag `AutoStart`), the bind lines and the
keyword lines. -/
def specRawText (cv : ConfigValues) (flags : Flags) : GoString :=
  (if flags.AutoStart then (cv.AutoStart.map specExecLine).flatten else [])
    ++ (cv.Binds.map specBindLine).flatten
    ++ (cv.Keywords.map specKeywordLine).flatten

/-- The number of `|` bytes of `s` that are not immediately preceded by a
backslash, where `prev` is the byte just before `s` (`none` at the start of
a string). -/
def barePipesAfter (prev : Option Nat) : GoString → Nat
  | [] => 0
  | c :: cs =>
    (if c = pipeByte ∧ prev ≠ some backslashByte then 1 else 0) + barePipesAfter (some c) cs

/-- The number of `|` bytes of the string `s` that are not immediately
preceded by a backslash. -/
def barePipes (s : GoString) : Nat := barePipesAfter none s

/-- In the part of `row` that starts at offset `start` and is `len` bytes
long, every `|` is immediately preceded by a backslash that lies in that part
too. -/
def PipesEscapedIn (row : GoString) (start len : Nat) : Prop :=
  ∀ j : Nat, start ≤ j → j < start + len → row[j]? = some pipeByte →
    start < j ∧ row[j - 1]? = some backslashByte

/-- The escaped `Command` of a bind, as line 162 computes it. -/
def escapedCommand (b : Keybind) : GoString :=
  stringsReplaceAll b.Command (bytes "|") (bytes "\\|")

/-- The escaped `Comments` of a bind, as line 162 computes it. -/
def escapedComments (b : Keybind) : GoString :=
  stringsReplaceAll b.Comments (bytes "|") (bytes "\\|")

/-- The offset in the row of a bind at which its escaped `Command` starts: the
length of what line 162 puts before it. -/
def commandOffset (b : Keybind) : Nat :=
  (bytes "| <kbd>" ++ b.Bind ++ bytes "</kbd> | " ++ b.Dispatcher ++ bytes " | ").length

/-- The offset in the row of a bind at which its escaped `Comments` starts: the
length of what line 162 puts before it. -/
def commentsOffset (b : Keybind) : Nat :=
  (bytes "| <kbd>" ++ b.Bind ++ bytes "</kbd> | " ++ b.Dispatcher ++ bytes " | "
    ++ stringsReplaceAll b.Command (bytes "|") (bytes "\\|") ++ bytes " | ").length

/-! ## A small configuration, used to run the definitions -/

/-- Two binds: one without command and comment, one whose command and comment
hold `|` and backslash bytes. -/
def demoBinds : List Keybind :=
  [ { BindType := bytes "bind", Bind := bytes "SUPER, Q", Dispatcher := bytes "killactive",
      Command := bytes "", Comments := bytes "" },
    { BindType := bytes "bindr", Bind := bytes "SUPER, P", Dispatcher := bytes "exec",
      Command := bytes "ps aux | grep \\| wc", Comments := bytes "count | procs\\" } ]

/-- The bind of `demoBinds` whose command and comment hold `|` and backslash
bytes. -/
def demoPipedBind : Keybind :=
  { BindType := bytes "bindr", Bind := bytes "SUPER, P", Dispatcher := bytes "exec",
    Command := bytes "ps aux | grep \\| wc", Comments := bytes "count | procs\\" }

/-- A bind with a `|` in its `Bind` and in its `Dispatcher`, then
`demoPipedBind`, which has none there. -/
def demoBindsMixed : List Keybind :=
  [ { BindType := bytes "bind", Bind := bytes "SUPER|ALT, X", Dispatcher := bytes "exec|x",
      Command := bytes "a|b", Comments := bytes "" },
    demoPipedBind ]

/-- A model with two keywords, the two binds, one category with a
sub-category, and one autostart entry. -/
def demoModel : ConfigValues :=
  { Keywords := [⟨bytes "mod", bytes "SUPER"⟩, ⟨bytes "term", bytes "kitty"⟩],
    Binds := demoBinds,
    Settings := [Category.mk (bytes "input") [(bytes "kb_layout", bytes "us")]
      [Category.mk (bytes "touchpad") [(bytes "natural_scroll", bytes "true")] []]],
    AutoStart := [⟨bytes "exec-once", bytes "waybar"⟩] }

/-- A model with the same binds as `demoModel` and nothing else. -/
def demoModelBare : ConfigValues :=
  { Keywords := [], Binds := demoBinds, Settings := [], AutoStart := [] }

/-- Flags with no output format chosen, no output file and the filter `exec`. -/
def demoFlags : Flags :=
  { Version := false, Help := false, ConfigPath := bytes "", Markdown := false, Raw := false,
    Json := false, Variables := false, AutoStart := false, Output := bytes "",
    FilterBinds := bytes "exec" }

/-- Flags with the same filter as `demoFlags` and every other field different. -/
def demoFlagsRaw : Flags :=
  { Version := true, Help := true, ConfigPath := bytes "hyprland.conf", Markdown := true,
    Raw := true, Json := true, Variables := true, AutoStart := true, Output := bytes "out.md",
    FilterBinds := bytes "exec" }

/-- An environment in which every file write succeeds, a map is ranged over in
the order of its entries, and the JSON text is empty. -/
def demoEnv : Env :=
  { writeFile := fun _ _ => none, rangeMap := fun m => m, jsonText := fun _ => [] }

/-- The world before anything is printed or written. -/
def demoWorld : World := { stdout := [], writes := [] }

/-! ## Lemmas on the `strings` functions -/

theorem stringsHasPrefix_iff (s sub : GoString) :
    stringsHasPrefix s sub = true ↔ ∃ t, s = sub ++ t := by
  induction s generalizing sub with
  | nil =>
    cases sub with
    | nil => simp [stringsHasPrefix]
    | cons d ds => simp [stringsHasPrefix]
  | cons c cs ih =>
    cases sub with
    | nil => simp [stringsHasPrefix]
    | cons d ds =>
      simp only [stringsHasPrefix, Bool.and_eq_true, beq_iff_eq, ih, List.cons_append,
        List.cons.injEq]
      constructor
      · rintro ⟨h, t, ht⟩
        exact ⟨t, h, ht⟩
      · rintro ⟨t, h, ht⟩
        exact ⟨h, t, ht⟩

theorem stringsContains_iff (s sub : GoString) :
    stringsContains s sub = true ↔ IsSubstring sub s := by
  unfold IsSubstring
  induction s with
  | nil =>
    simp only [stringsContains, stringsHasPrefix_iff]
    constructor
    · rintro ⟨t, ht⟩
      exact ⟨[], t, by simpa using ht⟩
    · rintro ⟨pre, post, h⟩
      have h1 : pre ++ sub ++ post = [] := h.symm
      simp only [List.append_eq_nil] at h1
      exact ⟨[], by simp [h1.1.2]⟩
  | cons c cs ih =>
    simp only [stringsContains, Bool.or_eq_true, stringsHasPrefix_iff, ih]
    constructor
    · rintro (⟨t, ht⟩ | ⟨pre, post, h⟩)
      · exact ⟨[], t, by simpa using ht⟩
      · exact ⟨c :: pre, post, by simp [h]⟩
    · rintro ⟨pre, post, h⟩
      cases pre with
      | nil => exact Or.inl ⟨post, by simpa using h⟩
      | cons p ps =>
        simp only [List.cons_append, List.cons.injEq] at h
        exact Or.inr ⟨ps, post, h.2⟩

theorem replaceScan_single (p : Nat) (new s : GoString) :
    replaceScan [p] new 0 s = s.flatMap (fun c => if c = p then new else [c]) := by
  induction s with
  | nil => rfl
  | cons c cs ih =>
    simp only [replaceScan, stringsHasPrefix, List.length_singleton, Nat.sub_self, ih,
      List.flatMap_cons]
    cases cs <;> by_cases h : c = p <;> simp [h, stringsHasPrefix]

theorem stringsReplaceAll_pipe (s : GoString) :
    stringsReplaceAll s (bytes "|") (bytes "\\|") = escapePipes s := by
  have h1 : bytes "|" = [pipeByte] := by decide
  have h2 : bytes "\\|" = [backslashByte, pipeByte] := by decide
  rw [h1, h2]
  exact replaceScan_single pipeByte _ s

theorem markdownRow_eq_spec (b : Keybind) : markdownRow b = specMarkdownRow b := by
  simp only [markdownRow, specMarkdownRow, stringsReplaceAll_pipe]

/-! ## Lemmas on the loops -/

theorem foldl_append_if {α : Type} (p : α → Bool) (xs : List α) (init : List α) :
    xs.foldl (fun acc x => if p x then acc ++ [x] else acc) init = init ++ xs.filter p := by
  induction xs generalizing init with
  | nil => simp
  | cons x xs ih =>
    simp only [List.foldl_cons, ih, List.filter_cons]
    by_cases h : p x = true <;> simp [h]

theorem foldl_append_each {α β : Type} (f : α → List β) (xs : List α) (init : List β) :
    xs.foldl (fun acc x => acc ++ f x) init = init ++ (xs.map f).flatten := by
  induction xs generalizing init with
  | nil => simp
  | cons x xs ih => simp [ih]

theorem filterBinds_eq_filter (cv : ConfigValues) (flags : Flags) :
    filterBinds cv flags = cv.Binds.filter (bindMatches flags.FilterBinds) := by
  unfold filterBinds
  have h := foldl_append_if (bindMatches flags.FilterBinds) cv.Binds []
  simpa [bindMatches] using h

theorem keybindsToMarkdown_eq_map (binds : List Keybind) :
    keybindsToMarkdown binds = binds.map markdownRow := by
  unfold keybindsToMarkdown
  have h := foldl_append_each (fun kb => [markdownRow kb]) binds []
  simp only [List.nil_append] at h
  rw [h]
  clear h
  induction binds with
  | nil => rfl
  | cons b bs ih => simp [ih]

theorem outputData_model (env : Env) (cv : ConfigValues) (flags : Flags) (w : World) :
    (outputData env cv flags w).1 = { cv with Binds := filterBinds cv flags } := by
  unfold outputData
  split_ifs <;> rfl

theorem count_flatten_map_eq {α : Type} (a : Nat) (n : Nat) (f : α → GoString) (xs : List α)
    (h : ∀ x ∈ xs, List.count a (f x) = n) :
    List.count a (xs.map f).flatten = n * xs.length := by
  induction xs with
  | nil => simp
  | cons x xs ih =>
    have hx := h x (List.mem_cons_self x xs)
    have hxs := ih (fun y hy => h y (List.mem_cons_of_mem x hy))
    simp only [List.map_cons, List.flatten_cons, List.count_append, hx, hxs, List.length_cons]
    ring

theorem count_escapePipes_newline (s : GoString) :
    List.count newlineByte (escapePipes s) = List.count newlineByte s := by
  induction s with
  | nil => rfl
  | cons c cs ih =>
    have hstep : escapePipes (c :: cs)
        = (if c = pipeByte then [backslashByte, pipeByte] else [c]) ++ escapePipes cs := by
      simp [escapePipes]
    rw [hstep, List.count_append, ih, List.count_cons]
    by_cases h : c = pipeByte
    · subst h
      simp [pipeByte, newlineByte, backslashByte]
    · simp [h, List.count_cons, Nat.add_comm]

theorem markdownOut_eq_spec (cv : ConfigValues) : markdownOut cv = specMarkdownText cv := by
  have h3 : bytes "| Keybind | Dispatcher | Command | Comments |\n"
      = bytes "| Keybind | Dispatcher | Command | Comments |" ++ bytes "\n" := by decide
  have h4 : bytes "|---------|------------|---------|----------|\n"
      = bytes "|---------|------------|---------|----------|" ++ bytes "\n" := by decide
  have h0 : bytes "" = [] := rfl
  simp only [markdownOut, specMarkdownText, foldl_append_each, h3, h4, h0, List.nil_append]
  rfl

theorem rawOut_eq_spec (env : Env) (cv : ConfigValues) (flags : Flags)
    (h : flags.Variables = false) : rawOut env cv flags = specRawText cv flags := by
  have h0 : bytes "" = [] := rfl
  have hbind : (fun (out : GoString) (bind : Keybind) =>
      (if bind.Comments ≠ [] then
        out ++ (bind.BindType ++ bytes " = " ++ bind.Bind ++ bytes " " ++ bind.Dispatcher
          ++ bytes " " ++ bind.Command) ++ (bytes "#" ++ bind.Comments)
      else
        out ++ (bind.BindType ++ bytes " = " ++ bind.Bind ++ bytes " " ++ bind.Dispatcher
          ++ bytes " " ++ bind.Command)) ++ bytes "\n")
      = fun out bind => out ++ specBindLine bind := by
    funext out bind
    by_cases hc : bind.Comments = [] <;> simp [specBindLine, hc]
  simp only [rawOut, specRawText, h, h0, Bool.false_eq_true, if_false, hbind]
  by_cases ha : flags.AutoStart = true
  · simp only [ha, if_true, foldl_append_each, List.nil_append]
    rfl
  · simp only [ha, if_false, foldl_append_each, List.nil_append]
    rfl

theorem barePipesAfter_of_not_mem (prev : Option Nat) (s : GoString) (h : pipeByte ∉ s) :
    barePipesAfter prev s = 0 := by
  induction s generalizing prev with
  | nil => rfl
  | cons c cs ih =>
    simp only [List.mem_cons, not_or] at h
    have hc : ¬ c = pipeByte := fun e => h.1 e.symm
    simp [barePipesAfter, hc, ih (some c) h.2]

theorem barePipesAfter_escapePipes (prev : Option Nat) (s : GoString) :
    barePipesAfter prev (escapePipes s) = 0 := by
  induction s generalizing prev with
  | nil => rfl
  | cons c cs ih =>
    have hstep : escapePipes (c :: cs)
        = (if c = pipeByte then [backslashByte, pipeByte] else [c]) ++ escapePipes cs := by
      simp [escapePipes]
    rw [hstep]
    by_cases h : c = pipeByte
    · simp [h, barePipesAfter, ih, pipeByte, backslashByte]
    · simp [h, barePipesAfter, ih]

theorem barePipesAfter_delimiter (prev : Option Nat) (s rest : GoString) :
    barePipesAfter prev (s ++ 32 :: pipeByte :: rest)
      = barePipesAfter prev s + 1 + barePipesAfter (some pipeByte) rest := by
  induction s generalizing prev with
  | nil => simp [barePipesAfter, pipeByte, backslashByte]
  | cons c cs ih =>
    have hcons : (c :: cs) ++ 32 :: pipeByte :: rest = c :: (cs ++ 32 :: pipeByte :: rest) := rfl
    rw [hcons, barePipesAfter, barePipesAfter, ih]
    omega

theorem markdownRow_shape (b : Keybind) :
    markdownRow b = pipeByte :: ((bytes " <kbd>" ++ b.Bind ++ bytes "</kbd>")
      ++ 32 :: pipeByte :: ((32 :: b.Dispatcher)
      ++ 32 :: pipeByte :: ((32 :: escapePipes b.Command)
      ++ 32 :: pipeByte :: ((32 :: escapePipes b.Comments)
      ++ 32 :: pipeByte :: [])))) := by
  have h1 : bytes "| <kbd>" = pipeByte :: bytes " <kbd>" := by decide
  have h2 : bytes "</kbd> | " = bytes "</kbd>" ++ [32, pipeByte, 32] := by decide
  have h3 : bytes " | " = [32, pipeByte, 32] := by decide
  have h4 : bytes " |" = [32, pipeByte] := by decide
  rw [markdownRow_eq_spec]
  simp only [specMarkdownRow, h1, h2, h3, h4, List.append_assoc, List.cons_append,
    List.nil_append]

theorem print_then_write_error (env : Env) (output out : GoString) (w : World)
    (h : output = bytes "") :
    (if output ≠ bytes "" then
      (match (osWriteFile env output out w).2 with
        | some err => ((osWriteFile env output out w).1, some err)
        | none => ((osWriteFile env output out w).1, none))
    else (w, (none : Option GoError))).2 = none := by
  simp [h]

theorem barePipes_markdownRow (b : Keybind) (h1 : pipeByte ∉ b.Bind)
    (h2 : pipeByte ∉ b.Dispatcher) : barePipes (markdownRow b) = 5 := by
  have hX1 : barePipesAfter (some pipeByte) (bytes " <kbd>" ++ b.Bind ++ bytes "</kbd>") = 0 := by
    apply barePipesAfter_of_not_mem
    have ha : pipeByte ∉ bytes " <kbd>" := by decide
    have hc : pipeByte ∉ bytes "</kbd>" := by decide
    simp only [List.mem_append, not_or]
    exact ⟨⟨ha, h1⟩, hc⟩
  have hX2 : barePipesAfter (some pipeByte) (32 :: b.Dispatcher) = 0 := by
    apply barePipesAfter_of_not_mem
    simp only [List.mem_cons, not_or]
    exact ⟨by decide, h2⟩
  have hX3 : ∀ s : GoString, barePipesAfter (some pipeByte) (32 :: escapePipes s) = 0 := by
    intro s
    simp [barePipesAfter, barePipesAfter_escapePipes, pipeByte]
  have hfirst : ∀ rest : GoString,
      barePipes (pipeByte :: rest) = 1 + barePipesAfter (some pipeByte) rest := by
    intro rest
    simp [barePipes, barePipesAfter]
  rw [markdownRow_shape, hfirst, barePipesAfter_delimiter, hX1, barePipesAfter_delimiter, hX2,
    barePipesAfter_delimiter, hX3, barePipesAfter_delimiter, hX3]
  rfl

theorem count_escapePipes_pipe (s : GoString) :
    List.count pipeByte (escapePipes s) = List.count pipeByte s := by
  induction s with
  | nil => rfl
  | cons c cs ih =>
    have hstep : escapePipes (c :: cs)
        = (if c = pipeByte then [backslashByte, pipeByte] else [c]) ++ escapePipes cs := by
      simp [escapePipes]
    rw [hstep, List.count_append, ih, List.count_cons]
    by_cases h : c = pipeByte
    · subst h
      simp [pipeByte, backslashByte, Nat.add_comm]
    · simp [h, List.count_cons, Nat.add_comm]

theorem count_pipe_markdownRow (b : Keybind) (h1 : pipeByte ∉ b.Bind)
    (h2 : pipeByte ∉ b.Dispatcher) :
    List.count pipeByte (markdownRow b)
      = 5 + List.count pipeByte b.Command + List.count pipeByte b.Comments := by
  have g1 : List.count pipeByte (bytes "| <kbd>") = 1 := by decide
  have g2 : List.count pipeByte (bytes "</kbd> | ") = 1 := by decide
  have g3 : List.count pipeByte (bytes " | ") = 1 := by decide
  have g4 : List.count pipeByte (bytes " |") = 1 := by decide
  simp only [markdownRow_eq_spec, specMarkdownRow, List.count_append, count_escapePipes_pipe,
    g1, g2, g3, g4, List.count_eq_zero.mpr h1, List.count_eq_zero.mpr h2]
  omega

theorem escapePipes_pipe_prev (s : GoString) (k : Nat)
    (h : (escapePipes s)[k]? = some pipeByte) :
    0 < k ∧ (escapePipes s)[k - 1]? = some backslashByte := by
  induction s generalizing k with
  | nil => simp [escapePipes] at h
  | cons c cs ih =>
    have hstep : escapePipes (c :: cs)
        = (if c = pipeByte then [backslashByte, pipeByte] else [c]) ++ escapePipes cs := by
      simp [escapePipes]
    rw [hstep] at h ⊢
    by_cases hc : c = pipeByte
    · simp only [hc, if_true, List.cons_append, List.nil_append] at h ⊢
      match k, h with
      | 0, h => simp [pipeByte, backslashByte] at h
      | 1, _ => simp
      | k + 2, h =>
        simp only [List.getElem?_cons_succ] at h
        obtain ⟨hk, hprev⟩ := ih k h
        obtain ⟨m, rfl⟩ : ∃ m, k = m + 1 := ⟨k - 1, by omega⟩
        refine ⟨by omega, ?_⟩
        simpa using hprev
    · simp only [hc, if_false, List.cons_append, List.nil_append] at h ⊢
      match k, h with
      | 0, h =>
        simp only [List.getElem?_cons_zero, Option.some.injEq] at h
        exact absurd h hc
      | k + 1, h =>
        simp only [List.getElem?_cons_succ] at h
        obtain ⟨hk, hprev⟩ := ih k h
        obtain ⟨m, rfl⟩ : ∃ m, k = m + 1 := ⟨k - 1, by omega⟩
        refine ⟨by omega, ?_⟩
        simpa using hprev

theorem pipesEscapedIn_segment (pre post s : GoString) :
    PipesEscapedIn (pre ++ (escapePipes s ++ post)) pre.length (escapePipes s).length := by
  intro j h1 h2 hj
  rw [List.getElem?_append_right h1, List.getElem?_append_left (by omega)] at hj
  obtain ⟨hk, hprev⟩ := escapePipes_pipe_prev s (j - pre.length) hj
  refine ⟨by omega, ?_⟩
  rw [List.getElem?_append_right (by omega), List.getElem?_append_left (by omega)]
  have hidx : j - 1 - pre.length = j - pre.length - 1 := by omega
  rw [hidx]
  exact hprev

theorem markdownRow_split_command (b : Keybind) :
    markdownRow b
      = (bytes "| <kbd>" ++ b.Bind ++ bytes "</kbd> | " ++ b.Dispatcher ++ bytes " | ")
        ++ (escapePipes b.Command ++ (bytes " | " ++ escapedComments b ++ bytes " |")) := by
  simp only [markdownRow, escapedComments, stringsReplaceAll_pipe, List.append_assoc]

theorem markdownRow_split_comments (b : Keybind) :
    markdownRow b
      = (bytes "| <kbd>" ++ b.Bind ++ bytes "</kbd> | " ++ b.Dispatcher ++ bytes " | "
          ++ stringsReplaceAll b.Command (bytes "|") (bytes "\\|") ++ bytes " | ")
        ++ (escapePipes b.Comments ++ bytes " |") := by
  simp only [markdownRow, stringsReplaceAll_pipe, List.append_assoc]

/-! ## The filter -/

/-- C1: a keybind occurs in the result of `filterBinds` exactly when it occurs
in the model's `Binds` and its `Dispatcher` or its `Command` contains the
filter string as a substring. -/
theorem filterBinds_mem_iff (cv : ConfigValues) (flags : Flags) (kb : Keybind) :
    kb ∈ filterBinds cv flags ↔
      kb ∈ cv.Binds ∧
        (IsSubstring flags.FilterBinds kb.Dispatcher ∨ IsSubstring flags.FilterBinds kb.Command) := by
  rw [filterBinds_eq_filter, List.mem_filter]
  simp only [bindMatches, Bool.or_eq_true, stringsContains_iff]

/-- C2: the result of `filterBinds` is a sublist of the model's `Binds` (the
kept binds in their relative order), a bind that passes the test is kept as
many times as it occurs in `Binds` and one that does not is kept zero times,
and the result is never longer than `Binds`. -/
theorem filterBinds_sublist (cv : ConfigValues) (flags : Flags) :
    List.Sublist (filterBinds cv flags) cv.Binds ∧
      (∀ kb : Keybind, List.count kb (filterBinds cv flags) =
        if stringsContains kb.Dispatcher flags.FilterBinds
            || stringsContains kb.Command flags.FilterBinds then
          List.count kb cv.Binds
        else 0) ∧
      (filterBinds cv flags).length ≤ cv.Binds.length := by
  rw [filterBinds_eq_filter]
  refine ⟨List.filter_sublist _, ?_, List.length_filter_le _ _⟩
  intro kb
  by_cases h : bindMatches flags.FilterBinds kb = true
  · have h2 := h
    simp only [bindMatches] at h2
    rw [if_pos h2]
    exact List.count_filter h
  · have h2 := h
    simp only [bindMatches] at h2
    rw [if_neg h2]
    rw [List.count_eq_zero]
    intro hm
    exact h (List.mem_filter.mp hm).2

/-- C3: after `outputData`, whatever the flags and whether or not an error is
returned, the model's `Keywords`, `Settings` and `AutoStart` are those of
before the call and its `Binds` is `filterBinds` of the model of before the
call. -/
theorem outputData_frame (env : Env) (cv : ConfigValues) (flags : Flags) (w : World) :
    (outputData env cv flags w).1.Keywords = cv.Keywords ∧
      (outputData env cv flags w).1.Settings = cv.Settings ∧
      (outputData env cv flags w).1.AutoStart = cv.AutoStart ∧
      (outputData env cv flags w).1.Binds = filterBinds cv flags := by
  rw [outputData_model]
  exact ⟨rfl, rfl, rfl, rfl⟩

/-- C4: the result of `filterBinds` depends on the model's `Binds` and on
`flags.FilterBinds` only: two models with equal `Binds` and two flag bundles
with equal `FilterBinds` give equal results. -/
theorem filterBinds_pure (cv₁ cv₂ : ConfigValues) (flags₁ flags₂ : Flags)
    (hBinds : cv₁.Binds = cv₂.Binds) (hFilter : flags₁.FilterBinds = flags₂.FilterBinds) :
    filterBinds cv₁ flags₁ = filterBinds cv₂ flags₂ := by
  unfold filterBinds
  rw [hBinds, hFilter]

/-- C5: `keybindsToMarkdown` gives exactly one row per bind, and at every index
the row is the one of the specification, built from the bind at that index
(beyond the last bind there is neither a bind nor a row). -/
theorem keybindsToMarkdown_rows (binds : List Keybind) :
    (keybindsToMarkdown binds).length = binds.length ∧
      ∀ i : Nat, (keybindsToMarkdown binds)[i]? = (binds[i]?).map specMarkdownRow := by
  rw [keybindsToMarkdown_eq_map]
  refine ⟨List.length_map _ _, ?_⟩
  intro i
  rw [List.getElem?_map]
  congr 1
  funext b
  exact markdownRow_eq_spec b

/-! ## The Markdown text -/

/-- C6: the text that `markdownHandler` builds is the text of the
specification (keyword headings with nothing between them, a line feed, the
two lines of the table head, the rows each followed by a line feed); it is
what the handler prints, followed by the line feed of `fmt.Println`; and when
no rendered field holds a line feed, the text has exactly 3 + (number of
binds) line feeds. -/
theorem markdownOut_spec (env : Env) (cv : ConfigValues) (flags : Flags) (w : World) :
    markdownOut cv = specMarkdownText cv ∧
      (markdownHandler env cv flags w).1.stdout = w.stdout ++ markdownOut cv ++ bytes "\n" ∧
      (NoNewlineInFields cv →
        List.count newlineByte (markdownOut cv) = 3 + cv.Binds.length) := by
  refine ⟨markdownOut_eq_spec cv, ?_, ?_⟩
  · unfold markdownHandler osWriteFile
    split_ifs with h
    · cases hw : env.writeFile flags.Output (markdownOut cv) <;> simp [hw, fmtPrintln]
    · simp [fmtPrintln]
  · rintro ⟨hk, hb⟩
    rw [markdownOut_eq_spec]
    unfold specMarkdownText
    rw [keybindsToMarkdown_eq_map, List.map_map]
    have hkw : List.count newlineByte (cv.Keywords.map specKeywordHeading).flatten
        = 0 * cv.Keywords.length := by
      apply count_flatten_map_eq
      intro k hkmem
      have := hk k hkmem
      have h1 : newlineByte ∉ bytes "#### $" := by decide
      have h2 : newlineByte ∉ bytes " = " := by decide
      rw [List.count_eq_zero]
      simp only [specKeywordHeading, List.mem_append, not_or]
      exact ⟨⟨⟨h1, this.1⟩, h2⟩, this.2⟩
    have hrows : List.count newlineByte
        (cv.Binds.map ((fun row => row ++ bytes "\n") ∘ markdownRow)).flatten
        = 1 * cv.Binds.length := by
      apply count_flatten_map_eq
      intro b hbmem
      obtain ⟨hb1, hb2, hb3, hb4⟩ := hb b hbmem
      have h1 : List.count newlineByte (bytes "| <kbd>") = 0 := by decide
      have h2 : List.count newlineByte (bytes "</kbd> | ") = 0 := by decide
      have h3 : List.count newlineByte (bytes " | ") = 0 := by decide
      have h4 : List.count newlineByte (bytes " |") = 0 := by decide
      have h5 : List.count newlineByte (bytes "\n") = 1 := by decide
      simp only [Function.comp, markdownRow_eq_spec, specMarkdownRow, List.count_append,
        count_escapePipes_newline, h1, h2, h3, h4, h5, List.count_eq_zero.mpr hb1,
        List.count_eq_zero.mpr hb2, List.count_eq_zero.mpr hb3, List.count_eq_zero.mpr hb4]
    have g1 : List.count newlineByte (bytes "\n") = 1 := by decide
    have g2 : List.count newlineByte (bytes "| Keybind | Dispatcher | Command | Comments |") = 0 := by
      decide
    have g3 : List.count newlineByte (bytes "|---------|------------|---------|----------|") = 0 := by
      decide
    simp only [List.count_append, hkw, hrows, g1, g2, g3]
    omega

/-- C6, run on `demoModel`: its fields hold no line feed, and its Markdown
text has 3 + 2 line feeds. -/
theorem markdownOut_spec_witness :
    NoNewlineInFields demoModel ∧
      List.count newlineByte (markdownOut demoModel) = 3 + demoModel.Binds.length :=
  ⟨by decide, (markdownOut_spec demoEnv demoModel demoFlags demoWorld).2.2 (by decide)⟩

/-! ## The raw text -/

/-- C7: when `flags.Variables` is false, the text that `rawHandler` builds is
the text of the specification: the autostart lines (only with
`flags.AutoStart`), one line per bind with `#` and `Comments` exactly when
`Comments` is not empty, one line per keyword, every line ended by a line
feed; it is what the handler prints; and for a bind with empty `Comments`
alone in a model, the text has as many `#` as the bind's `BindType`, `Bind`,
`Dispatcher` and `Command` together. -/
theorem rawOut_spec (env : Env) (cv : ConfigValues) (flags : Flags) (w : World)
    (hVars : flags.Variables = false) :
    rawOut env cv flags = specRawText cv flags ∧
      (rawHandler env cv flags w).1.stdout = w.stdout ++ rawOut env cv flags ∧
      ∀ b : Keybind,
        List.count hashByte
            (rawOut env
              { Keywords := [],
                Binds := [⟨b.BindType, b.Bind, b.Dispatcher, b.Command, bytes ""⟩],
                Settings := cv.Settings,
                AutoStart := [] }
              flags)
          = List.count hashByte b.BindType + List.count hashByte b.Bind
            + List.count hashByte b.Dispatcher + List.count hashByte b.Command := by
  refine ⟨rawOut_eq_spec env cv flags hVars, ?_, ?_⟩
  · unfold rawHandler osWriteFile
    split_ifs with h
    · cases hw : env.writeFile flags.Output (rawOut env cv flags) <;> simp [hw, fmtPrint]
    · simp [fmtPrint]
  · intro b
    rw [rawOut_eq_spec env _ flags hVars]
    have h0 : bytes "" = [] := rfl
    have h1 : List.count hashByte (bytes " = ") = 0 := by decide
    have h2 : List.count hashByte (bytes " ") = 0 := by decide
    have h3 : List.count hashByte (bytes "\n") = 0 := by decide
    simp only [specRawText, specBindLine, List.map_nil, List.flatten_nil, ite_self,
      List.map_cons, List.flatten_cons, List.append_nil, List.nil_append, h0, if_true,
      List.count_append, h1, h2, h3, List.count_nil, Nat.add_zero]

/-- C7, run on `demoModel` with `demoFlags`, where `Variables` is false. -/
theorem rawOut_spec_witness :
    demoFlags.Variables = false ∧
      rawOut demoEnv demoModel demoFlags = specRawText demoModel demoFlags :=
  ⟨rfl, (rawOut_spec demoEnv demoModel demoFlags demoWorld rfl).1⟩

/-! ## The error of `outputData` -/

/-- C8: with an empty `Output` path, `outputData` returns an error exactly
when none of `Markdown`, `Raw` and `Json` is set; the error is then
"No output flag selected", and with one of the three set it is nil. -/
theorem outputData_error (env : Env) (cv : ConfigValues) (flags : Flags) (w : World)
    (hOut : flags.Output = bytes "") :
    ((outputData env cv flags w).2.2.isSome = true ↔
        (flags.Markdown = false ∧ flags.Raw = false ∧ flags.Json = false)) ∧
      (outputData env cv flags w).2.2 =
        if flags.Markdown || flags.Raw || flags.Json then none
        else some ⟨bytes "No output flag selected"⟩ := by
  have key : (outputData env cv flags w).2.2 =
      if flags.Markdown || flags.Raw || flags.Json then none
      else some ⟨bytes "No output flag selected"⟩ := by
    unfold outputData
    by_cases hm : flags.Markdown = true
    · simp only [hm, if_true, Bool.true_or]
      exact print_then_write_error env flags.Output _ _ hOut
    · by_cases hr : flags.Raw = true
      · simp only [hm, hr, if_true, if_false, Bool.true_or, Bool.or_true]
        exact print_then_write_error env flags.Output _ _ hOut
      · by_cases hj : flags.Json = true
        · simp only [hm, hr, hj, if_true, if_false, Bool.or_true]
          exact print_then_write_error env flags.Output _ _ hOut
        · simp [hm, hr, hj]
  refine ⟨?_, key⟩
  rw [key]
  cases flags.Markdown <;> cases flags.Raw <;> cases flags.Json <;> simp

/-- C8, run on `demoModel` with `demoFlags`: the `Output` path is empty, no
format is chosen, and the error is "No output flag selected". -/
theorem outputData_error_witness :
    demoFlags.Output = bytes "" ∧
      (outputData demoEnv demoModel demoFlags demoWorld).2.2
        = some ⟨bytes "No output flag selected"⟩ :=
  ⟨rfl, (outputData_error demoEnv demoModel demoFlags demoWorld rfl).2⟩

/-! ## The pipes of a Markdown row -/

/-- C10: for the bind at any index of the list, when its `Bind` and its
`Dispatcher` hold no `|` (whatever the other binds of the list hold),
`keybindsToMarkdown` has a row at that index, and this row has exactly five
`|` that are not immediately preceded by a backslash, although it has five
`|` plus those of `Command` and of `Comments` in all; the escaped `Command`
and the escaped `Comments` stand in the row at their offsets, and every `|`
inside them is immediately preceded by a backslash of the same part. -/
theorem keybindsToMarkdown_bare_pipes (binds : List Keybind) (i : Nat) (b : Keybind)
    (hi : binds[i]? = some b) (hBind : pipeByte ∉ b.Bind) (hDisp : pipeByte ∉ b.Dispatcher) :
    ∃ row : GoString, (keybindsToMarkdown binds)[i]? = some row ∧
      barePipes row = 5 ∧
      List.count pipeByte row
        = 5 + List.count pipeByte b.Command + List.count pipeByte b.Comments ∧
      (row.drop (commandOffset b)).take (escapedCommand b).length = escapedCommand b ∧
      PipesEscapedIn row (commandOffset b) (escapedCommand b).length ∧
      (row.drop (commentsOffset b)).take (escapedComments b).length = escapedComments b ∧
      PipesEscapedIn row (commentsOffset b) (escapedComments b).length := by
  refine ⟨markdownRow b, ?_, barePipes_markdownRow b hBind hDisp,
    count_pipe_markdownRow b hBind hDisp, ?_, ?_, ?_, ?_⟩
  · rw [keybindsToMarkdown_eq_map, List.getElem?_map, hi]
    rfl
  · have hE : escapedCommand b = escapePipes b.Command := stringsReplaceAll_pipe b.Command
    rw [hE, markdownRow_split_command, commandOffset, List.drop_left, List.take_left]
  · have hE : escapedCommand b = escapePipes b.Command := stringsReplaceAll_pipe b.Command
    rw [hE, markdownRow_split_command, commandOffset]
    exact pipesEscapedIn_segment _ _ _
  · have hE : escapedComments b = escapePipes b.Comments := stringsReplaceAll_pipe b.Comments
    rw [hE, markdownRow_split_comments, commentsOffset, List.drop_left, List.take_left]
  · have hE : escapedComments b = escapePipes b.Comments := stringsReplaceAll_pipe b.Comments
    rw [hE, markdownRow_split_comments, commentsOffset]
    exact pipesEscapedIn_segment _ _ _

/-- C10, run on the second bind of `demoBindsMixed`: it has no `|` in its
`Bind` and `Dispatcher` while the bind before it has, and `|` and backslash
bytes in its `Command` and `Comments`; its row has five `|` not preceded by a
backslash. -/
theorem keybindsToMarkdown_bare_pipes_witness :
    demoBindsMixed[1]? = some demoPipedBind ∧
      pipeByte ∉ demoPipedBind.Bind ∧ pipeByte ∉ demoPipedBind.Dispatcher ∧
      ∃ row : GoString, (keybindsToMarkdown demoBindsMixed)[1]? = some row ∧
        barePipes row = 5 :=
  ⟨rfl, by decide, by decide,
    (keybindsToMarkdown_bare_pipes demoBindsMixed 1 demoPipedBind rfl (by decide)
      (by decide)).imp (fun _ hrow => ⟨hrow.1, hrow.2.1⟩)⟩

/-- C4, run on `demoModel` and `demoModelBare`, which share their binds and
nothing else, with `demoFlags` and `demoFlagsRaw`, which share their filter
and nothing else. -/
theorem filterBinds_pure_witness :
    demoModel.Binds = demoModelBare.Binds ∧ demoFlags.FilterBinds = demoFlagsRaw.FilterBinds ∧
      filterBinds demoModel demoFlags = filterBinds demoModelBare demoFlagsRaw :=
  ⟨rfl, rfl, filterBinds_pure demoModel demoModelBare demoFlags demoFlagsRaw rfl rfl⟩

/-! ## The definitions, run on the small configuration -/

theorem demo_stringsContains :
    stringsContains (bytes "killactive") (bytes "act") = true ∧
      stringsContains (bytes "killactive") (bytes "exec") = false ∧
      stringsContains (bytes "") (bytes "") = true := by decide

theorem demo_stringsReplaceAll :
    stringsReplaceAll (bytes "a|b||") (bytes "|") (bytes "\\|") = bytes "a\\|b\\|\\|" ∧
      stringsReplaceAll (bytes "aaa") (bytes "aa") (bytes "b") = bytes "ba" := by decide

theorem demo_filterBinds :
    (filterBinds demoModel demoFlags).map (fun b => b.Bind) = [bytes "SUPER, P"] := by decide

theorem demo_keybindsToMarkdown :
    keybindsToMarkdown demoBinds =
      [bytes "| <kbd>SUPER, Q</kbd> | killactive |  |  |",
        bytes "| <kbd>SUPER, P</kbd> | exec | ps aux \\| grep \\\\| wc | count \\| procs\\ |"] := by
  decide

theorem demo_barePipes_mixed :
    (keybindsToMarkdown demoBindsMixed).map barePipes = [7, 5] ∧
      (keybindsToMarkdown demoBindsMixed).map (List.count pipeByte) = [8, 8] := by decide

theorem demo_escapedCommand_in_row :
    commandOffset demoPipedBind = 31 ∧ (escapedCommand demoPipedBind).length = 21 ∧
      ((markdownRow demoPipedBind).drop 31).take 21 = bytes "ps aux \\| grep \\\\| wc" := by
  decide

theorem demo_rawOut :
    rawOut demoEnv demoModel demoFlags =
      bytes "bind = SUPER, Q killactive \n"
        ++ bytes "bindr = SUPER, P exec ps aux | grep \\| wc#count | procs\\\n"
        ++ bytes "$mod = SUPER\n" ++ bytes "$term = kitty\n" := by
  decide

end Hyprkeys
